import Mathlib

/-!
Verification of the contact-extraction and reconciliation pipeline
(src/utils/extractors.py, src/utils/theharvester_integration.py,
src/utils/storage.py) against its natural-language specification.

The Python source is shallowly embedded: dictionaries become association
lists or structures, Python sets become insertion-ordered duplicate-free
lists, the stdlib regular-expression engine (re.findall with backtracking,
greedy quantifiers and word boundaries) is embedded as an executable
fuel-based matcher, exceptions become Except/Option, and the wall clock
becomes an explicit `now` argument.  File bytes and JSON serialization are
abstracted: the store maps a path to the parsed JSON document (json.dump
followed by json.load is structurally the identity on the JSON-expressible
values used here).
-/

/-! ## Python-style association lists (dict), sets, and string helpers -/

/-- Lookup in an association list, first binding wins (Python dict access
`d[k]` / `d.get(k)`; dicts never hold duplicate keys). -/
def alookup {α : Type} : List (String × α) → String → Option α
  | [], _ => none
  | (k, v) :: rest, key => if k == key then some v else alookup rest key

/-- Python dict assignment `d[k] = v`: update the binding in place if the key
is present (keeping its position), otherwise append the new binding. -/
def dictSet {α : Type} : List (String × α) → String → α → List (String × α)
  | [], k, v => [(k, v)]
  | (k', v') :: rest, k, v =>
    if k' == k then (k, v) :: rest else (k', v') :: dictSet rest k v

/-- Key-presence test `k in d` on a Python dict. -/
def hasKey {α : Type} (m : List (String × α)) (k : String) : Bool :=
  (alookup m k).isSome

/-- Python set modelled as an insertion-ordered duplicate-free list:
`s.add(x)` appends `x` unless already present.  (CPython set iteration
order is unspecified; membership and cardinality are order-independent.) -/
def setAdd (l : List String) (x : String) : List String :=
  if x ∈ l then l else l ++ [x]

/-- `str.lower()` (ASCII, which is all the source feeds it). -/
def pyLower (s : String) : String :=
  String.mk (s.toList.map Char.toLower)

/-- `str.replace(pat, rep)` on character lists: replace every
non-overlapping occurrence, scanning left to right.  Fueled by the input
length (each step consumes at least one character). -/
def replaceAllAux (pat rep : List Char) : Nat → List Char → List Char
  | _, [] => []
  | 0, s => s
  | fuel + 1, c :: rest =>
    if pat ≠ [] ∧ pat.isPrefixOf (c :: rest) then
      rep ++ replaceAllAux pat rep fuel ((c :: rest).drop pat.length)
    else
      c :: replaceAllAux pat rep fuel rest

/-- `s.replace(pat, rep)` for strings. -/
def pyReplace (s pat rep : String) : String :=
  String.mk (replaceAllAux pat.toList rep.toList s.toList.length s.toList)

/-- Substring test `pat in s` on Python strings. -/
def hasSubstr : List Char → List Char → Bool
  | pat, [] => pat.isEmpty
  | pat, c :: rest => pat.isPrefixOf (c :: rest) || hasSubstr pat rest

/-- `s.split(sep, 1)` at a single character, returning the parts before and
after the first occurrence (`none` when the character does not occur). -/
def splitAtFirst (c : Char) : List Char → Option (List Char × List Char)
  | [] => none
  | x :: xs =>
    if x = c then some ([], xs)
    else (splitAtFirst c xs).map (fun p => (x :: p.1, p.2))

/-! ## Embedded regular-expression engine (Python `re`)

Only the constructs appearing in EMAIL_PATTERNS / PHONE_PATTERNS are
embedded: character classes, literals, concatenation, greedy counted
repetition and the word boundary `\b`.  `reM` enumerates outcomes in the
backtracking preference order of the CPython engine (greedy quantifiers
first); `pyFindall` takes the first outcome at each position and scans
left to right without overlap, exactly like `re.findall` on patterns with
no capturing groups. -/

inductive RE where
  | eps
  | cls (p : Char → Bool)
  | lit (c : Char)
  | cat (a b : RE)
  | rep (a : RE) (lo : Nat) (hi : Option Nat)
  | wordB

/-- Word character for `\b` : `[A-Za-z0-9_]`. -/
def wordChar (c : Char) : Bool :=
  c.isAlpha || c.isDigit || c = '_'

/-- `\b` holds between a word char and a non-word char (string ends count
as non-word). -/
def atBoundary (prev : Option Char) (s : List Char) : Bool :=
  (match prev with | some c => wordChar c | none => false)
    != (match s with | c :: _ => wordChar c | [] => false)

/-- Literal match, honouring re.IGNORECASE. -/
def litEq (ci : Bool) (c ch : Char) : Bool :=
  ch = c || (ci && ch.toLower = c.toLower)

/-- Class match, honouring re.IGNORECASE. -/
def clsMem (ci : Bool) (p : Char → Bool) (ch : Char) : Bool :=
  p ch || (ci && (p ch.toLower || p ch.toUpper))

/-- Decrement an optional repetition bound. -/
def hiPred : Option Nat → Option Nat
  | none => none
  | some n => some (n - 1)

/-- All ways a pattern can match a prefix of `s`, as (last consumed char,
remaining suffix) pairs, in backtracking preference order.  `prev` is the
character just before the current position (for `\b`).  Fuel bounds the
recursion; every construct either consumes input or shrinks the pattern,
so a fuel linear in the input length suffices. -/
def reM (ci : Bool) : Nat → RE → Option Char → List Char → List (Option Char × List Char)
  | 0, _, _, _ => []
  | fuel + 1, r, prev, s =>
    match r with
    | .eps => [(prev, s)]
    | .lit c =>
      match s with
      | [] => []
      | ch :: rest => if litEq ci c ch then [(some ch, rest)] else []
    | .cls p =>
      match s with
      | [] => []
      | ch :: rest => if clsMem ci p ch then [(some ch, rest)] else []
    | .wordB => if atBoundary prev s then [(prev, s)] else []
    | .cat a b =>
      (reM ci fuel a prev s).flatMap (fun pr => reM ci fuel b pr.1 pr.2)
    | .rep a lo hi =>
      match lo with
      | lo' + 1 =>
        (reM ci fuel a prev s).flatMap
          (fun pr => reM ci fuel (.rep a lo' (hiPred hi)) pr.1 pr.2)
      | 0 =>
        match hi with
        | some 0 => [(prev, s)]
        | _ =>
          ((reM ci fuel a prev s).flatMap
            (fun pr => reM ci fuel (.rep a 0 (hiPred hi)) pr.1 pr.2)) ++ [(prev, s)]

/-- Fuel for one anchored match attempt. -/
def matchFuel (s : List Char) : Nat := 8 * s.length + 64

/-- `re.findall` body: at each position try an anchored match; on success
record the consumed prefix and resume after it (advancing one character
when the match is empty), otherwise advance one character.  The outer fuel
is the number of remaining positions. -/
def findAllAux (ci : Bool) (r : RE) : Nat → Option Char → List Char → List (List Char)
  | 0, _, _ => []
  | fuel + 1, prev, s =>
    match reM ci (matchFuel s) r prev s with
    | [] =>
      match s with
      | [] => []
      | c :: rest => findAllAux ci r fuel (some c) rest
    | (p', s') :: _ =>
      let k := s.length - s'.length
      let m := s.take k
      if k = 0 then
        match s with
        | [] => [m]
        | c :: rest => m :: findAllAux ci r fuel (some c) rest
      else m :: findAllAux ci r fuel p' s'

/-- `re.findall(pattern, text)` (ci = re.IGNORECASE), for patterns without
capturing groups. -/
def pyFindall (ci : Bool) (r : RE) (s : String) : List String :=
  (findAllAux ci r (s.toList.length + 1) none s.toList).map String.mk

/-! ## The regex patterns of src/utils/extractors.py -/

/-- Class `[A-Za-z0-9._%+-]` (email local part). -/
def localChar (c : Char) : Bool :=
  c.isAlpha || c.isDigit || c = '.' || c = '_' || c = '%' || c = '+' || c = '-'

/-- Class `[A-Za-z0-9.-]` (email domain). -/
def domainChar (c : Char) : Bool :=
  c.isAlpha || c.isDigit || c = '.' || c = '-'

/-- Class `[A-Z|a-z]` — as written in the source, it also contains the
literal bar character. -/
def tldChar (c : Char) : Bool :=
  c.isAlpha || c = '|'

/-- Python `\s` (the ASCII whitespace the inputs use). -/
def pySpace (c : Char) : Bool :=
  c = ' ' || c = '\t' || c = '\n' || c = '\r' || c = '\x0b' || c = '\x0c'

/-- Class `[\s\-\.]`. -/
def sepChar (c : Char) : Bool :=
  pySpace c || c = '-' || c = '.'

/-- Class `[\s\-]`. -/
def spaceDash (c : Char) : Bool :=
  pySpace c || c = '-'

/-- Helper: concatenation of a list of pattern pieces. -/
def reSeq (l : List RE) : RE :=
  l.foldr RE.cat RE.eps

/-- Pattern `\b[A-Za-z0-9._%+-]+@[A-Za-z0-9.-]+\.[A-Z|a-z]{2,}\b`. -/
def emailPat1 : RE :=
  reSeq [.wordB, .rep (.cls localChar) 1 none, .lit '@',
         .rep (.cls domainChar) 1 none, .lit '.',
         .rep (.cls tldChar) 2 none, .wordB]

/-- Pattern `\b[A-Za-z0-9._%+-]+\[at\][A-Za-z0-9.-]+\.[A-Z|a-z]{2,}\b`. -/
def emailPat2 : RE :=
  reSeq [.wordB, .rep (.cls localChar) 1 none,
         .lit '[', .lit 'a', .lit 't', .lit ']',
         .rep (.cls domainChar) 1 none, .lit '.',
         .rep (.cls tldChar) 2 none, .wordB]

/-- Pattern `\b[A-Za-z0-9._%+-]+\(at\)[A-Za-z0-9.-]+\.[A-Z|a-z]{2,}\b`. -/
def emailPat3 : RE :=
  reSeq [.wordB, .rep (.cls localChar) 1 none,
         .lit '(', .lit 'a', .lit 't', .lit ')',
         .rep (.cls domainChar) 1 none, .lit '.',
         .rep (.cls tldChar) 2 none, .wordB]

/-- EMAIL_PATTERNS, in source order. -/
def EMAIL_PATTERNS : List RE := [emailPat1, emailPat2, emailPat3]

/-- Pattern
`\+\d{1,3}[\s\-\.]?\(?\d{1,4}\)?[\s\-\.]?\d{1,4}[\s\-\.]?\d{1,4}[\s\-\.]?\d{0,4}`. -/
def phonePat1 : RE :=
  reSeq [.lit '+', .rep (.cls Char.isDigit) 1 (some 3),
         .rep (.cls sepChar) 0 (some 1), .rep (.lit '(') 0 (some 1),
         .rep (.cls Char.isDigit) 1 (some 4), .rep (.lit ')') 0 (some 1),
         .rep (.cls sepChar) 0 (some 1), .rep (.cls Char.isDigit) 1 (some 4),
         .rep (.cls sepChar) 0 (some 1), .rep (.cls Char.isDigit) 1 (some 4),
         .rep (.cls sepChar) 0 (some 1), .rep (.cls Char.isDigit) 0 (some 4)]

/-- Pattern `\(\d{3}\)\s*\d{3}[\s\-]?\d{4}`. -/
def phonePat2 : RE :=
  reSeq [.lit '(', .rep (.cls Char.isDigit) 3 (some 3), .lit ')',
         .rep (.cls pySpace) 0 none, .rep (.cls Char.isDigit) 3 (some 3),
         .rep (.cls spaceDash) 0 (some 1), .rep (.cls Char.isDigit) 4 (some 4)]

/-- Pattern `\d{3}[\s\-]\d{3}[\s\-]\d{4}`. -/
def phonePat3 : RE :=
  reSeq [.rep (.cls Char.isDigit) 3 (some 3), .cls spaceDash,
         .rep (.cls Char.isDigit) 3 (some 3), .cls spaceDash,
         .rep (.cls Char.isDigit) 4 (some 4)]

/-- Pattern `\d{10,15}`. -/
def phonePat4 : RE :=
  .rep (.cls Char.isDigit) 10 (some 15)

/-- PHONE_PATTERNS, in source order. -/
def PHONE_PATTERNS : List RE := [phonePat1, phonePat2, phonePat3, phonePat4]

/-! ## extract_emails / extract_phones -/

/-- Normalization applied to each email match before insertion:
`match.replace("[at]", "@").replace("(at)", "@")` followed by `.lower()`. -/
def cleanEmail (m : String) : String :=
  pyLower (pyReplace (pyReplace m "[at]" "@") "(at)" "@")

/-- `extract_emails`: run the three patterns with re.IGNORECASE, normalize
each match and accumulate into one set. -/
def extract_emails (text : String) : List String :=
  EMAIL_PATTERNS.foldl
    (fun acc pat =>
      (pyFindall true pat text).foldl (fun acc2 m => setAdd acc2 (cleanEmail m)) acc)
    []

/-- Cleaning applied to each phone match:
`re.sub(r"[\s\-\(\)\.]", "", match)` removes whitespace, hyphens,
parentheses and dots (and nothing else). -/
def cleanPhone (m : String) : String :=
  String.mk (m.toList.filter (fun c => !(pySpace c || c = '-' || c = '(' || c = ')' || c = '.')))

/-- The body of the inner loop of `extract_phones`. -/
def phoneStep (acc : List String) (m : String) : List String :=
  let c := cleanPhone m
  if 10 ≤ c.length then setAdd acc c else acc

/-- `extract_phones`: run the four patterns, clean each match, keep it when
the cleaned string has length at least 10, accumulate into one set. -/
def extract_phones (text : String) : List String :=
  PHONE_PATTERNS.foldl
    (fun acc pat => (pyFindall false pat text).foldl phoneStep acc)
    []

/-- All raw phone matches, across the four patterns in source order. -/
def phoneRawMatches (text : String) : List String :=
  PHONE_PATTERNS.flatMap (fun pat => pyFindall false pat text)

/-! ## Validators (src/utils/extractors.py)

The strong paths delegate to external libraries (email_validator,
phonenumbers) that are resolved once per call via ImportError; they are
embedded as an optional oracle `Option (String → Option String)`:
`some v` is the strong path (per-candidate: `v x = some y` when the
library accepts `x` and normalizes it to `y`, `none` when it rejects —
the source appends on success and silently skips on failure), `none` is
the ImportError fallback path using the basic checks. -/

/-- `basic_email_check`: the fallback email validator. -/
def basic_email_check (email : String) : Bool :=
  -- if not email or "@" not in email: return False
  if email.isEmpty || !(email.toList.contains '@') then false
  else
    -- local, domain = email.split("@", 1)
    match splitAtFirst '@' email.toList with
    | none => false
    | some (localPart, domain) =>
      -- if not local or not domain or "." not in domain: return False
      if localPart.isEmpty || domain.isEmpty || !(domain.contains '.') then false
      -- return len(local) > 0 and len(domain) > 2
      else decide (0 < localPart.length) && decide (2 < domain.length)

/-- `basic_phone_check`: the fallback phone validator. -/
def basic_phone_check (phone : String) : Bool :=
  if phone.isEmpty then false
  else
    -- digits = re.sub(r"\D", "", phone)
    let digits := phone.toList.filter Char.isDigit
    -- return 10 <= len(digits) <= 15
    decide (10 ≤ digits.length) && decide (digits.length ≤ 15)

/-- `validate_emails`: strong path appends the normalized form of each
accepted candidate (filterMap over the oracle), fallback filters with
`basic_email_check`. -/
def validate_emails (strong : Option (String → Option String)) (emails : List String) : List String :=
  match strong with
  | some v => emails.filterMap v
  | none => emails.filter basic_email_check

/-- `validate_phones`: strong path appends the international format of
each parseable valid number, fallback filters with `basic_phone_check`. -/
def validate_phones (strong : Option (String → Option String)) (phones : List String) : List String :=
  match strong with
  | some v => phones.filterMap v
  | none => phones.filter basic_phone_check

/-! ## extract_contacts and its raw-record input -/

/-- JSON-ish metadata values appearing in a ContactResult. -/
inductive MVal where
  | s (v : String)
  | n (v : Nat)
  | b (v : Bool)
  | null
deriving DecidableEq

/-- `raw_data.get(k)` for an optional string field. -/
def optStr : Option String → MVal
  | some v => .s v
  | none => .null

/-- A raw scraped record (a Python dict).  Fields the extractor reads are
given explicitly; `experience` and `education` are lists of the (string)
values of each entry dict.  A key bound to None is represented the same
as an absent key (the extractor treats both alike everywhere except dict
truthiness, which no claim exercises on such records). -/
structure RawRecord where
  error : Option String := none
  url : Option String := none
  name : Option String := none
  title : Option String := none
  company : Option String := none
  location : Option String := none
  about : Option String := none
  experience : List (List String) := []
  education : List (List String) := []
  raw_html : Option String := none
  timestamp : Option String := none

/-- Python truthiness of the record dict: `not raw_data` for a dict is
true exactly when it has no keys. -/
def RawRecord.isFalsy (r : RawRecord) : Bool :=
  r.error.isNone && r.url.isNone && r.name.isNone && r.title.isNone &&
  r.company.isNone && r.location.isNone && r.about.isNone &&
  r.experience.isEmpty && r.education.isEmpty && r.raw_html.isNone &&
  r.timestamp.isNone

/-- The argument of `extract_contacts`: Python None, or a record dict. -/
inductive RawData where
  | pynone
  | rdict (r : RawRecord)

/-- `extract_text_content`: concatenate the present-and-truthy textual
fields, every experience and education entry value, and the raw-markup
fallback, joined by single spaces with falsy parts dropped. -/
def extract_text_content (r : RawRecord) : String :=
  let addIf : Option String → List String := fun o =>
    match o with
    | some s => if s.isEmpty then [] else [s]   -- `if raw_data.get(field):`
    | none => []
  let parts :=
    addIf r.name ++ addIf r.title ++ addIf r.company ++ addIf r.location ++ addIf r.about
      ++ (if r.experience.isEmpty then [] else r.experience.flatMap id)
      ++ (if r.education.isEmpty then [] else r.education.flatMap id)
      ++ addIf r.raw_html
  -- return " ".join(str(part) for part in text_parts if part)
  String.intercalate " " (parts.filter (fun s => !s.isEmpty))

/-- The result dict built by `extract_contacts`. -/
structure ContactResult where
  emails : List String
  phones : List String
  metadata : List (String × MVal)
deriving DecidableEq

/-- `extract_contacts`, parameterized by the two validation oracles.
On Python None the guard `if not raw_data or "error" in raw_data:` is
taken and its body evaluates `raw_data.get("error", "No data")` on None,
raising AttributeError — embedded as `Except.error`. -/
def extract_contacts (svE svP : Option (String → Option String)) (raw : RawData) :
    Except String ContactResult :=
  match raw with
  | .pynone => .error "AttributeError"
  | .rdict r =>
    if r.isFalsy || r.error.isSome then
      .ok { emails := [], phones := [],
            metadata := [("error", .s (r.error.getD "No data"))] }
    else
      let text := extract_text_content r
      let emails := extract_emails text
      let validated_emails := validate_emails svE emails
      let phones := extract_phones text
      let validated_phones := validate_phones svP phones
      .ok { emails := validated_emails,
            phones := validated_phones,
            metadata :=
              [("source_url", optStr r.url),
               ("name", optStr r.name),
               ("title", optStr r.title),
               ("company", optStr r.company),
               ("location", optStr r.location),
               ("extraction_timestamp", optStr r.timestamp),
               ("total_emails_found", .n emails.length),
               ("total_phones_found", .n phones.length),
               ("validated_emails", .n validated_emails.length),
               ("validated_phones", .n validated_phones.length)] }

/-! ## combine_results (src/utils/theharvester_integration.py) -/

/-- The scraper-side result consumed by `combine_results` (a ContactResult
dict; `metadata` may be absent, which the merge repairs with an empty
dict). -/
structure SResult where
  emails : List String
  phones : List String
  metadata : Option (List (String × MVal))
deriving DecidableEq

/-- The harvester-side result: `combine_results` reads only
`harvester_results.get("emails", [])` and `.get("domain")`. -/
structure HResult where
  domain : Option String
  emails : List String
deriving DecidableEq

/-- `combine_results`: extend the email list with harvester emails whose
exact string is not in the existing list (membership tested against a set
built from the pre-merge list), then annotate metadata with the harvester
flag, domain, and added-email count. -/
def combine_results (s : SResult) (h : HResult) : SResult :=
  let harvester_emails := h.emails
  -- existing_emails = set(combined.get("emails", []))
  let existing_emails := s.emails
  let new_emails := harvester_emails.filter (fun e => !(existing_emails.contains e))
  -- if "metadata" not in combined: combined["metadata"] = dict()
  let md0 := s.metadata.getD []
  { emails := s.emails ++ new_emails,
    phones := s.phones,
    metadata := some
      (dictSet
        (dictSet
          (dictSet md0 "theharvester_used" (.b true))
          "theharvester_domain" (optStr h.domain))
        "additional_emails_from_harvester" (.n new_emails.length)) }

/-! ## Storage (src/utils/storage.py)

Documents are JSON values; the file system maps a path to the parsed
document stored there (byte-level serialization is abstracted: for these
values `json.load` after `json.dump` is structurally the identity, and a
missing path loads as None).  `datetime.now().isoformat()` is the
explicit `now` argument. -/

/-- JSON values. -/
inductive JVal where
  | str (s : String)
  | num (n : Int)
  | jbool (b : Bool)
  | null
  | arr (xs : List JVal)
  | obj (kvs : List (String × JVal))

/-- Equality test used to embed Python `x in list` membership checks on
the specific shapes that arise (a string probe against list elements). -/
def jIsStr (v : JVal) (s : String) : Bool :=
  match v with
  | .str t => t == s
  | _ => false

/-- Python truthiness of a JSON value. -/
def JVal.falsy : JVal → Bool
  | .str s => s.isEmpty
  | .num n => n == 0
  | .jbool b => !b
  | .null => true
  | .arr xs => xs.isEmpty
  | .obj kvs => kvs.isEmpty

/-- The timestamp stamping done inside `save_to_json`:
`if "metadata" in data and "extraction_timestamp" not in data["metadata"]:
data["metadata"]["extraction_timestamp"] = now`.  Returns the document
actually serialized, or `none` when this raises (TypeError on a
non-container membership test or a non-dict item assignment), in which
case `save_to_json` catches and returns False. -/
def stampExtractionTimestamp (now : String) : JVal → Option JVal
  | .obj kvs =>
    match alookup kvs "metadata" with
    | none => some (.obj kvs)
    | some (.obj mkvs) =>
      if hasKey mkvs "extraction_timestamp" then some (.obj kvs)
      else some (.obj (dictSet kvs "metadata"
        (.obj (dictSet mkvs "extraction_timestamp" (.str now)))))
    | some (.str m) =>
      -- "extraction_timestamp" not in <str> is a substring test; when the
      -- stamp is attempted on a str it raises TypeError
      if hasSubstr "extraction_timestamp".toList m.toList then some (.obj kvs) else none
    | some (.arr xs) =>
      -- membership test on a list; item assignment by string raises
      if xs.any (fun v => jIsStr v "extraction_timestamp") then some (.obj kvs) else none
    | some _ => none
  | .arr xs =>
    -- "metadata" in <list> tests membership; data["metadata"] then raises
    if xs.any (fun v => jIsStr v "metadata") then none else some (.arr xs)
  | .str s =>
    -- "metadata" in <str> tests substring; data["metadata"] then raises
    if hasSubstr "metadata".toList s.toList then none else some (.str s)
  | _ => none  -- `"metadata" in data` raises TypeError on int/bool/None

/-- The store: path to parsed document. -/
def FS : Type := List (String × JVal)

/-- `save_to_json`: stamp a missing extraction_timestamp, write the whole
document at the path, return success; on an exception return False with
the store unchanged. -/
def save_to_json (now : String) (data : JVal) (fs : FS) (path : String) : Bool × FS :=
  match stampExtractionTimestamp now data with
  | some d => (true, dictSet fs path d)
  | none => (false, fs)

/-- `load_from_json`: the parsed document, or None when the path does not
exist (decode failures also yield None in the source; the store holds
only well-formed documents). -/
def load_from_json (fs : FS) (path : String) : Option JVal :=
  alookup fs path

/-- The stamping of `saved_timestamp` onto the incoming result inside
`append_to_json` (creating the metadata dict when absent); `none` when the
Python raises (non-dict new_data or non-dict metadata value), which the
enclosing try catches, returning False. -/
def stampSavedTimestamp (now : String) : JVal → Option JVal
  | .obj kvs =>
    match alookup kvs "metadata" with
    | some (.obj mkvs) =>
      some (.obj (dictSet kvs "metadata" (.obj (dictSet mkvs "saved_timestamp" (.str now)))))
    | some _ => none  -- new_data["metadata"]["saved_timestamp"] = ... raises
    | none =>
      -- if "metadata" not in new_data: new_data["metadata"] = dict()
      some (.obj (dictSet kvs "metadata" (.obj [("saved_timestamp", .str now)])))
  | _ => none  -- item assignment on a non-dict raises

/-- `append_to_json`: read-modify-write.  Load the existing document (a
missing or falsy document starts an empty results container), coerce a
non-dict or results-less document into the container shape, stamp the
incoming result, push it onto results, save the container back. -/
def append_to_json (now : String) (newData : JVal) (fs : FS) (path : String) : Bool × FS :=
  -- existing_data = load_from_json(filepath) or dict with empty results
  let existing0 : JVal :=
    match load_from_json fs path with
    | some d => if d.falsy then .obj [("results", .arr [])] else d
    | none => .obj [("results", .arr [])]
  -- if not isinstance(existing_data, dict): wrap it
  let existing1 : JVal :=
    match existing0 with
    | .obj kvs => .obj kvs
    | other => .obj [("results", .arr [other])]
  -- if "results" not in existing_data: wrap it
  let existing2 : List (String × JVal) :=
    match existing1 with
    | .obj kvs => if hasKey kvs "results" then kvs else [("results", .arr [.obj kvs])]
    | _ => []   -- unreachable: existing1 is always an obj
  match stampSavedTimestamp now newData with
  | none => (false, fs)
  | some stamped =>
    -- existing_data["results"].append(new_data)
    match alookup existing2 "results" with
    | some (.arr rs) =>
      save_to_json now (.obj (dictSet existing2 "results" (.arr (rs ++ [stamped])))) fs path
    | _ => (false, fs)  -- .append on a non-list raises

/-- Written from the specification sentence for the round-trip property
(the document "structurally equal to `result` except for the added
`extraction_timestamp`"), to be compared with what the code stores: the
input document with an extraction_timestamp stamped onto its metadata
dict when one was missing, and untouched otherwise. -/
def specStampedDoc (now : String) : JVal → JVal
  | .obj kvs =>
    match alookup kvs "metadata" with
    | some (.obj mkvs) =>
      if hasKey mkvs "extraction_timestamp" then .obj kvs
      else .obj (dictSet kvs "metadata"
        (.obj (dictSet mkvs "extraction_timestamp" (.str now))))
    | _ => .obj kvs
  | v => v

/-- The optional metadata value holds a count that is at least `k`. -/
def countAtLeast (v : Option MVal) (k : Nat) : Prop :=
  match v with
  | some (.n t) => k ≤ t
  | _ => False

/-! ## Helper lemmas -/

theorem alookup_dictSet_self {α : Type} (m : List (String × α)) (k : String) (v : α) :
    alookup (dictSet m k v) k = some v := by
  induction m with
  | nil => simp [dictSet, alookup]
  | cons p rest ih =>
    obtain ⟨k', v'⟩ := p
    by_cases h : k' == k
    · simp [dictSet, h, alookup]
    · simp only [dictSet, h, Bool.false_eq_true, if_false, alookup, ih]

theorem alookup_dictSet_ne {α : Type} (m : List (String × α)) (k k2 : String) (v : α)
    (h : k2 ≠ k) : alookup (dictSet m k v) k2 = alookup m k2 := by
  induction m with
  | nil =>
    simp only [dictSet, alookup]
    have : ¬ (k == k2) = true := by
      intro hc
      exact h (beq_iff_eq.mp hc).symm
    simp [this]
  | cons p rest ih =>
    obtain ⟨k', v'⟩ := p
    by_cases hk : k' == k
    · have hk' : k' = k := by exact beq_iff_eq.mp hk
      subst hk'
      have : ¬ (k' == k2) = true := by
        intro hc
        exact h (beq_iff_eq.mp hc).symm
      simp [dictSet, alookup, this]
    · simp only [dictSet, hk, Bool.false_eq_true, if_false, alookup]
      by_cases h2 : k' == k2
      · simp [h2]
      · simp [h2, ih]

theorem mem_setAdd (l : List String) (x c : String) :
    c ∈ setAdd l x ↔ c ∈ l ∨ c = x := by
  by_cases h : x ∈ l
  · simp only [setAdd, h, if_true]
    constructor
    · exact Or.inl
    · rintro (hc | rfl) <;> assumption
  · simp [setAdd, h]

theorem contains_eq_decide_mem {α : Type} [BEq α] [LawfulBEq α] [DecidableEq α]
    (l : List α) (e : α) : l.contains e = decide (e ∈ l) := by
  by_cases h : e ∈ l
  · simp [h, List.elem_iff.mpr h]
  · have hd : decide (e ∈ l) = false := by simpa using h
    rw [hd]
    by_cases hc : l.contains e
    · exact absurd (List.elem_iff.mp hc) h
    · simpa using hc

theorem validate_emails_length_le (sv : Option (String → Option String)) (l : List String) :
    (validate_emails sv l).length ≤ l.length := by
  cases sv with
  | some v => exact List.length_filterMap_le v l
  | none => exact List.length_filter_le _ l

theorem validate_phones_length_le (sv : Option (String → Option String)) (l : List String) :
    (validate_phones sv l).length ≤ l.length := by
  cases sv with
  | some v => exact List.length_filterMap_le v l
  | none => exact List.length_filter_le _ l

theorem mem_phoneStep (acc : List String) (m c : String) :
    c ∈ phoneStep acc m ↔ c ∈ acc ∨ (cleanPhone m = c ∧ 10 ≤ (cleanPhone m).length) := by
  show c ∈ (if 10 ≤ (cleanPhone m).length then setAdd acc (cleanPhone m) else acc) ↔ _
  by_cases h : 10 ≤ (cleanPhone m).length
  · rw [if_pos h, mem_setAdd]
    constructor
    · rintro (hc | rfl)
      · exact Or.inl hc
      · exact Or.inr ⟨rfl, h⟩
    · rintro (hc | ⟨rfl, _⟩)
      · exact Or.inl hc
      · exact Or.inr rfl
  · rw [if_neg h]
    constructor
    · exact Or.inl
    · rintro (hc | ⟨_, hl⟩)
      · exact hc
      · exact absurd hl h

theorem mem_foldl_phoneStep (ms : List String) (acc : List String) (c : String) :
    c ∈ ms.foldl phoneStep acc ↔
      c ∈ acc ∨ ∃ m ∈ ms, cleanPhone m = c ∧ 10 ≤ (cleanPhone m).length := by
  induction ms generalizing acc with
  | nil => simp
  | cons m ms ih =>
    rw [List.foldl_cons, ih, mem_phoneStep]
    constructor
    · rintro ((hc | hm) | ⟨m', hm', hp⟩)
      · exact Or.inl hc
      · exact Or.inr ⟨m, List.mem_cons_self m ms, hm⟩
      · exact Or.inr ⟨m', List.mem_cons_of_mem m hm', hp⟩
    · rintro (hc | ⟨m', hm', hp⟩)
      · exact Or.inl (Or.inl hc)
      · rcases List.mem_cons.mp hm' with rfl | hm2
        · exact Or.inl (Or.inr hp)
        · exact Or.inr ⟨m', hm2, hp⟩

theorem foldl_phonePatterns (σ : RE → List String) (pats : List RE) (acc : List String) :
    pats.foldl (fun a pat => (σ pat).foldl phoneStep a) acc
      = (pats.flatMap σ).foldl phoneStep acc := by
  induction pats generalizing acc with
  | nil => rfl
  | cons p ps ih => rw [List.foldl_cons, List.flatMap_cons, List.foldl_append, ih]

theorem splitAtFirst_eq_some (c : Char) (l : List Char) : ∀ (a b : List Char),
    splitAtFirst c l = some (a, b) ↔ l = a ++ c :: b ∧ c ∉ a := by
  induction l with
  | nil => intro a b; simp [splitAtFirst]
  | cons x xs ih =>
    intro a b
    by_cases hx : x = c
    · subst hx
      have hred : splitAtFirst x (x :: xs) = some ([], xs) := by simp [splitAtFirst]
      rw [hred]
      constructor
      · intro h
        have h2 := Option.some.inj h
        have ha : ([] : List Char) = a := congrArg Prod.fst h2
        have hb : xs = b := congrArg Prod.snd h2
        subst hb
        rw [← ha]
        simp
      · rintro ⟨heq, hni⟩
        cases a with
        | nil =>
          simp only [List.nil_append, List.cons.injEq] at heq
          rw [heq.2]
        | cons a0 a2 =>
          simp only [List.cons_append, List.cons.injEq] at heq
          have hmem : x ∈ a0 :: a2 := by
            rw [heq.1]
            exact List.mem_cons_self a0 a2
          exact absurd hmem hni
    · simp only [splitAtFirst, if_neg hx, Option.map_eq_some']
      constructor
      · rintro ⟨⟨a2, b2⟩, hsp, heq⟩
        simp only [Prod.mk.injEq] at heq
        obtain ⟨ha, hb⟩ := heq
        obtain ⟨hxs, hni⟩ := (ih a2 b2).mp hsp
        subst hb
        rw [← ha]
        refine ⟨by rw [hxs]; rfl, ?_⟩
        intro hc
        rcases List.mem_cons.mp hc with h1 | h2
        · exact hx h1.symm
        · exact hni h2
      · rintro ⟨heq, hni⟩
        cases a with
        | nil =>
          simp only [List.nil_append, List.cons.injEq] at heq
          exact absurd heq.1 hx
        | cons a0 a2 =>
          simp only [List.cons_append, List.cons.injEq] at heq
          obtain ⟨hx0, hxs⟩ := heq
          refine ⟨(a2, b), (ih a2 b).mpr ⟨hxs, fun hc => hni (List.mem_cons_of_mem _ hc)⟩, ?_⟩
          simp [hx0]

theorem splitAtFirst_isSome_of_mem (c : Char) (l : List Char) (h : c ∈ l) :
    (splitAtFirst c l).isSome := by
  induction l with
  | nil => simp at h
  | cons x xs ih =>
    by_cases hx : x = c
    · simp [splitAtFirst, hx]
    · rcases List.mem_cons.mp h with h1 | h2
      · exact absurd h1.symm hx
      · simp only [splitAtFirst, if_neg hx]
        have := ih h2
        cases hs : splitAtFirst c xs with
        | none => rw [hs] at this; simp at this
        | some p => simp [hs]

/-! ## Claims -/

/-- Claim C1: the spec says an absent (None) or empty or error-marked
record yields an empty ContactResult carrying the upstream error string,
and that no exception escapes.  For an empty dict and for an error-marked
dict the code does exactly that, but on Python None the guard branch
itself evaluates `raw_data.get("error", "No data")` on None and raises
AttributeError — the error short-circuit never returns. -/
theorem extract_contacts_error_short_circuit :
    extract_contacts none none RawData.pynone = .error "AttributeError"
    ∧ extract_contacts none none (.rdict { error := some "boom" })
        = .ok ⟨[], [], [("error", .s "boom")]⟩
    ∧ extract_contacts none none (.rdict {})
        = .ok ⟨[], [], [("error", .s "No data")]⟩ :=
  ⟨rfl, rfl, rfl⟩

/-- Claim C2 (counterexample): the corpus "+1 234 567 89" produces the
kept candidate "+123456789", which still contains the non-digit '+' and
has only 9 digits — so matches are not stripped of all non-digit
characters, and a match can be kept with fewer than 10 digits. -/
theorem extract_phones_keeps_nine_digit_plus :
    extract_phones "+1 234 567 89" = ["+123456789"]
    ∧ (("+123456789").toList.filter Char.isDigit).length = 9
    ∧ ("+123456789").toList.contains '+' = true :=
  ⟨by decide, by decide, by decide⟩

/-- Claim C2 (amended): every phone match is cleaned by deleting
whitespace, hyphens, parentheses and dots (a plus sign survives), and a
match is kept as a candidate iff the cleaned string — non-digit '+'
included — has length at least 10. -/
theorem extract_phones_kept_iff (text c : String) :
    c ∈ extract_phones text ↔
      ∃ m ∈ phoneRawMatches text, cleanPhone m = c ∧ 10 ≤ c.length := by
  unfold extract_phones phoneRawMatches
  rw [foldl_phonePatterns (fun pat => pyFindall false pat text), mem_foldl_phoneStep]
  constructor
  · rintro (hc | ⟨m, hm, hc, hl⟩)
    · simp at hc
    · exact ⟨m, hm, hc, by rw [← hc]; exact hl⟩
  · rintro ⟨m, hm, hc, hl⟩
    exact Or.inr ⟨m, hm, hc, by rw [hc]; exact hl⟩

/-- Claim C3 (counterexample): "a@b@c.de" contains two at signs, yet the
fallback validator keeps it (the split is at the first at sign only). -/
theorem basic_email_check_two_at_signs :
    basic_email_check "a@b@c.de" = true
    ∧ (("a@b@c.de").toList.filter (fun ch => ch = '@')).length = 2 :=
  ⟨by decide, by decide⟩

/-- Claim C3 (amended): the fallback validator keeps a candidate iff it
contains at least one at sign and, splitting at the first one, the local
part is non-empty and the remainder (which may itself contain further at
signs) contains a dot and is longer than 2; the spec example behaves as
claimed. -/
theorem basic_email_check_iff :
    (∀ email : String, basic_email_check email = true ↔
      ∃ lp d : List Char, email.toList = lp ++ '@' :: d ∧ '@' ∉ lp ∧
        lp ≠ [] ∧ '.' ∈ d ∧ 2 < d.length)
    ∧ ["a@b.co", "not-an-email", "x@y"].filter basic_email_check = ["a@b.co"] := by
  constructor
  · intro email
    by_cases hc : '@' ∈ email.toList
    · have hne : email.toList ≠ [] := by
        intro h
        rw [h] at hc
        simp at hc
      have hemp : email.isEmpty = false := by
        by_cases he : email = ""
        · exact absurd (by rw [he]; rfl) hne
        · rcases hb : email.isEmpty with _ | _
          · rfl
          · exact absurd ((String.isEmpty_iff email).mp hb) he
      have hcontains : email.toList.contains '@' = true := by
        rw [contains_eq_decide_mem]
        simpa using hc
      obtain ⟨⟨lp0, d0⟩, hsp⟩ : ∃ p, splitAtFirst '@' email.toList = some p := by
        have hs := splitAtFirst_isSome_of_mem '@' email.toList hc
        cases h : splitAtFirst '@' email.toList with
        | none => rw [h] at hs; simp at hs
        | some p => exact ⟨p, rfl⟩
      obtain ⟨hsplit, hnotin⟩ := (splitAtFirst_eq_some '@' email.toList lp0 d0).mp hsp
      have huniq : ∀ lp d : List Char, email.toList = lp ++ '@' :: d → '@' ∉ lp →
          lp0 = lp ∧ d0 = d := by
        intro lp d heq hni
        have h2 : splitAtFirst '@' email.toList = some (lp, d) :=
          (splitAtFirst_eq_some '@' email.toList lp d).mpr ⟨heq, hni⟩
        rw [hsp] at h2
        have h3 := Option.some.inj h2
        exact ⟨congrArg Prod.fst h3, congrArg Prod.snd h3⟩
      unfold basic_email_check
      rw [hemp, hcontains, hsp]
      simp only [Bool.not_true, Bool.or_false, Bool.false_or, Bool.false_eq_true, if_false]
      by_cases hg : (lp0.isEmpty || d0.isEmpty || !(d0.contains '.')) = true
      · rw [if_pos hg]
        constructor
        · intro h
          simp at h
        · rintro ⟨lp, d, heq, hni, hlpne, hdot, hlen⟩
          obtain ⟨e1, e2⟩ := huniq lp d heq hni
          rw [← e1] at hlpne
          rw [← e2] at hdot hlen
          rcases Bool.or_eq_true_iff.mp hg with h12 | h3
          · rcases Bool.or_eq_true_iff.mp h12 with h1 | h2
            · exact absurd (List.isEmpty_iff.mp h1) hlpne
            · rw [List.isEmpty_iff.mp h2] at hlen
              simp at hlen
          · have hdc : d0.contains '.' = true := by
              rw [contains_eq_decide_mem]
              simpa using hdot
            rw [hdc] at h3
            simp at h3
      · rw [if_neg hg]
        have hgf : (lp0.isEmpty || d0.isEmpty || !(d0.contains '.')) = false := by
          rcases h : (lp0.isEmpty || d0.isEmpty || !(d0.contains '.')) with _ | _
          · rfl
          · exact absurd h hg
        obtain ⟨h12, h3⟩ := Bool.or_eq_false_iff.mp hgf
        obtain ⟨h1, h2⟩ := Bool.or_eq_false_iff.mp h12
        have hdc : d0.contains '.' = true := by simpa using h3
        constructor
        · intro h
          simp only [Bool.and_eq_true, decide_eq_true_eq] at h
          obtain ⟨hl, hr⟩ := h
          refine ⟨lp0, d0, hsplit, hnotin, ?_, ?_, hr⟩
          · intro h0
            rw [h0] at h1
            simp at h1
          · rw [contains_eq_decide_mem] at hdc
            simpa using hdc
        · rintro ⟨lp, d, heq, hni, hlpne, hdot, hlen⟩
          obtain ⟨e1, e2⟩ := huniq lp d heq hni
          rw [← e1] at hlpne
          rw [← e2] at hlen
          have hb1 : decide (0 < lp0.length) = true := by
            simp [List.length_pos, hlpne]
          have hb2 : decide (2 < d0.length) = true := by simpa using hlen
          rw [hb1, hb2]
          rfl
    · have hcontains : email.toList.contains '@' = false := by
        rw [contains_eq_decide_mem]
        simpa using hc
      constructor
      · intro h
        exfalso
        unfold basic_email_check at h
        rw [hcontains] at h
        simp at h
      · rintro ⟨lp, d, heq, _⟩
        refine absurd ?_ hc
        rw [heq]
        exact List.mem_append_right lp (List.mem_cons_self '@' d)
  · decide

/-- Claim C8 (counterexample): a corpus that contains both obfuscation
variants only inside longer tokens yields no candidate "a.b@example.com"
at all — the universally quantified claim over every corpus containing
the two variants fails. -/
theorem extract_emails_obfuscation_not_universal :
    hasSubstr "a.b[at]example.com".toList "za.b[at]example.com za.b(at)example.com".toList = true
    ∧ hasSubstr "a.b(at)example.com".toList "za.b[at]example.com za.b(at)example.com".toList = true
    ∧ extract_emails "za.b[at]example.com za.b(at)example.com" = ["za.b@example.com"]
    ∧ "a.b@example.com" ∉ extract_emails "za.b[at]example.com za.b(at)example.com" :=
  ⟨by decide, by decide, by decide, by decide⟩

/-- Claim C8 (amended): for the corpus in which the two obfuscation
variants occur as standalone tokens, both are normalized to the at sign
and lower-cased and collapse to exactly the one candidate. -/
theorem extract_emails_obfuscation_collapse :
    extract_emails "a.b[at]example.com a.b(at)example.com" = ["a.b@example.com"] := by
  decide

/-- Claim C10: pattern matching is case-insensitive but the token
replacement is case-sensitive, so an upper-case obfuscation token is
matched yet not replaced: the candidate keeps the token, lower-cased. -/
theorem extract_emails_uppercase_token_not_replaced :
    extract_emails "user[AT]example.com" = ["user[at]example.com"]
    ∧ "user[at]example.com" ≠ "user@example.com" :=
  ⟨by decide, by decide⟩

/-- Claim C4: the merge appends exactly the harvester emails whose string
is not already in the pre-merge list (in harvester order) and records
their number in additional_emails_from_harvester; the spec example
behaves as claimed. -/
theorem combine_results_dedup_and_count :
    (∀ (s : SResult) (h : HResult),
      (combine_results s h).emails
          = s.emails ++ h.emails.filter (fun e => decide (e ∉ s.emails))
        ∧ alookup ((combine_results s h).metadata.getD []) "additional_emails_from_harvester"
          = some (.n (h.emails.filter (fun e => decide (e ∉ s.emails))).length))
    ∧ combine_results ⟨["a@b.com"], [], none⟩ ⟨none, ["a@b.com", "c@d.com"]⟩
        = ⟨["a@b.com", "c@d.com"], [],
            some [("theharvester_used", .b true), ("theharvester_domain", .null),
                  ("additional_emails_from_harvester", .n 1)]⟩ := by
  constructor
  · intro s h
    have hf : (fun e => !(s.emails.contains e)) = (fun e => decide (e ∉ s.emails)) := by
      funext e
      rw [contains_eq_decide_mem]
      by_cases he : e ∈ s.emails <;> simp [he]
    constructor
    · show s.emails ++ h.emails.filter (fun e => !(s.emails.contains e)) = _
      rw [hf]
    · show alookup (dictSet (dictSet (dictSet (s.metadata.getD []) "theharvester_used" (.b true))
          "theharvester_domain" (optStr h.domain)) "additional_emails_from_harvester"
          (.n (h.emails.filter (fun e => !(s.emails.contains e))).length))
          "additional_emails_from_harvester"
        = some (.n (h.emails.filter (fun e => decide (e ∉ s.emails))).length)
      rw [alookup_dictSet_self, hf]
  · rfl

/-- Claim C9 (counterexample): a pre-existing metadata key equal to one of
the three annotation keys is overwritten by the merge, so the merge does
not preserve every pre-existing metadata key with its original value. -/
theorem combine_results_overwrites_annotation_key :
    alookup ((combine_results ⟨[], [], some [("theharvester_used", .b false)]⟩
        ⟨none, []⟩).metadata.getD []) "theharvester_used" = some (.b true)
    ∧ MVal.b true ≠ MVal.b false :=
  ⟨rfl, by decide⟩

/-- Claim C9 (amended): the merge annotates metadata with exactly the
three keys theharvester_used, theharvester_domain and
additional_emails_from_harvester (overwriting them if already present);
every other pre-existing metadata key keeps its original value. -/
theorem combine_results_preserves_other_metadata (s : SResult) (h : HResult) (k : String)
    (hk1 : k ≠ "theharvester_used") (hk2 : k ≠ "theharvester_domain")
    (hk3 : k ≠ "additional_emails_from_harvester") :
    alookup ((combine_results s h).metadata.getD []) k = alookup (s.metadata.getD []) k := by
  show alookup (dictSet (dictSet (dictSet (s.metadata.getD []) "theharvester_used" _)
    "theharvester_domain" _) "additional_emails_from_harvester" _) k = _
  rw [alookup_dictSet_ne _ _ _ _ hk3, alookup_dictSet_ne _ _ _ _ hk2,
    alookup_dictSet_ne _ _ _ _ hk1]

/-- Witness for combine_results_preserves_other_metadata at a concrete
merge: the key "name" survives with its original value. -/
theorem combine_results_preserves_other_metadata_witness :
    alookup ((combine_results ⟨[], [], some [("name", .s "ada")]⟩ ⟨none, []⟩).metadata.getD [])
        "name" = alookup ((some [("name", MVal.s "ada")]).getD []) "name" :=
  combine_results_preserves_other_metadata ⟨[], [], some [("name", .s "ada")]⟩ ⟨none, []⟩
    "name" (by decide) (by decide) (by decide)

/-- Claim C7: for a non-empty record without error marker, the produced
ContactResult satisfies validated_emails = len(emails),
validated_phones = len(phones), and total_*_found at least the validated
counts, whichever validation path is active. -/
theorem extract_contacts_count_invariant (svE svP : Option (String → Option String))
    (r : RawRecord) (h1 : r.isFalsy = false) (h2 : r.error = none)
    (cr : ContactResult) (hcr : extract_contacts svE svP (.rdict r) = .ok cr) :
    alookup cr.metadata "validated_emails" = some (.n cr.emails.length)
    ∧ alookup cr.metadata "validated_phones" = some (.n cr.phones.length)
    ∧ countAtLeast (alookup cr.metadata "total_emails_found") cr.emails.length
    ∧ countAtLeast (alookup cr.metadata "total_phones_found") cr.phones.length := by
  simp only [extract_contacts] at hcr
  rw [h1, h2] at hcr
  simp only [Option.isSome_none, Bool.or_false, Bool.false_eq_true, if_false,
    Except.ok.injEq] at hcr
  subst hcr
  refine ⟨rfl, rfl, ?_, ?_⟩
  · show (validate_emails svE (extract_emails (extract_text_content r))).length
      ≤ (extract_emails (extract_text_content r)).length
    exact validate_emails_length_le svE _
  · show (validate_phones svP (extract_phones (extract_text_content r))).length
      ≤ (extract_phones (extract_text_content r)).length
    exact validate_phones_length_le svP _

/-- Witness for extract_contacts_count_invariant on the record with only
a name field, under the fallback validators. -/
theorem extract_contacts_count_invariant_witness :
    alookup (ContactResult.mk [] []
        [("source_url", .null), ("name", .s "ada"), ("title", .null), ("company", .null),
         ("location", .null), ("extraction_timestamp", .null), ("total_emails_found", .n 0),
         ("total_phones_found", .n 0), ("validated_emails", .n 0),
         ("validated_phones", .n 0)]).metadata "validated_emails" = some (.n 0)
    ∧ alookup (ContactResult.mk [] []
        [("source_url", .null), ("name", .s "ada"), ("title", .null), ("company", .null),
         ("location", .null), ("extraction_timestamp", .null), ("total_emails_found", .n 0),
         ("total_phones_found", .n 0), ("validated_emails", .n 0),
         ("validated_phones", .n 0)]).metadata "validated_phones" = some (.n 0)
    ∧ countAtLeast (some (.n 0)) 0
    ∧ countAtLeast (some (.n 0)) 0 :=
  extract_contacts_count_invariant none none { name := some "ada" } rfl rfl
    (ContactResult.mk [] []
      [("source_url", .null), ("name", .s "ada"), ("title", .null), ("company", .null),
       ("location", .null), ("extraction_timestamp", .null), ("total_emails_found", .n 0),
       ("total_phones_found", .n 0), ("validated_emails", .n 0), ("validated_phones", .n 0)])
    rfl

theorem specStampedDoc_eq_of_stamp (now : String) (data d : JVal)
    (h : stampExtractionTimestamp now data = some d) : specStampedDoc now data = d := by
  cases data with
  | obj kvs =>
    cases hm : alookup kvs "metadata" with
    | none =>
      simp [stampExtractionTimestamp, hm] at h
      simp [specStampedDoc, hm, h]
    | some v =>
      cases v with
      | obj mkvs =>
        by_cases hh : hasKey mkvs "extraction_timestamp" = true
        · simp [stampExtractionTimestamp, hm, hh] at h
          simp [specStampedDoc, hm, hh, h]
        · have hh2 : hasKey mkvs "extraction_timestamp" = false := by
            rcases hx : hasKey mkvs "extraction_timestamp" with _ | _
            · rfl
            · exact absurd hx hh
          simp [stampExtractionTimestamp, hm, hh2] at h
          simp [specStampedDoc, hm, hh2, h]
      | str m =>
        simp [stampExtractionTimestamp, hm] at h
        simp [specStampedDoc, hm, h.2]
      | arr xs =>
        simp [stampExtractionTimestamp, hm] at h
        simp [specStampedDoc, hm, h.2]
      | num n => simp [stampExtractionTimestamp, hm] at h
      | jbool b => simp [stampExtractionTimestamp, hm] at h
      | null => simp [stampExtractionTimestamp, hm] at h
  | arr xs =>
    simp [stampExtractionTimestamp] at h
    simp [specStampedDoc, h.2]
  | str s =>
    simp [stampExtractionTimestamp] at h
    simp [specStampedDoc, h.2]
  | num n => simp [stampExtractionTimestamp] at h
  | jbool b => simp [stampExtractionTimestamp] at h
  | null => simp [stampExtractionTimestamp] at h

/-- Claim C6: after a successful save, loading the same path returns the
document that is the input result with an extraction_timestamp added to
its metadata when one was missing and structurally unchanged otherwise
(specStampedDoc is written from that spec sentence). -/
theorem save_then_load_round_trip (now path : String) (fs : FS) (data : JVal)
    (hsucc : (save_to_json now data fs path).fst = true) :
    load_from_json (save_to_json now data fs path).snd path
      = some (specStampedDoc now data) := by
  cases hst : stampExtractionTimestamp now data with
  | none =>
    exfalso
    unfold save_to_json at hsucc
    rw [hst] at hsucc
    simp at hsucc
  | some d =>
    unfold save_to_json
    rw [hst]
    show load_from_json (dictSet fs path d) path = some (specStampedDoc now data)
    unfold load_from_json
    rw [alookup_dictSet_self, specStampedDoc_eq_of_stamp now data d hst]

/-- Witness for save_then_load_round_trip: saving a result whose metadata
lacks the timestamp and loading it back returns the timestamped result. -/
theorem save_then_load_round_trip_witness :
    load_from_json (save_to_json "2024-01-01T00:00:00"
        (.obj [("emails", .arr [.str "a@b.com"]), ("metadata", .obj [("name", .str "ada")])])
        [] "data/results.json").snd "data/results.json"
      = some (specStampedDoc "2024-01-01T00:00:00"
        (.obj [("emails", .arr [.str "a@b.com"]), ("metadata", .obj [("name", .str "ada")])])) :=
  save_then_load_round_trip "2024-01-01T00:00:00" "data/results.json" []
    (.obj [("emails", .arr [.str "a@b.com"]), ("metadata", .obj [("name", .str "ada")])]) rfl

/-- Claim C5: appending to a path holding a bare single ContactResult
document wraps it as a results container holding the old result followed
by the stamped new one, and appending to a nonexistent path yields the
container holding just the stamped new result (the saved_timestamp
stamping is the stampSavedTimestamp hypothesis). -/
theorem append_to_json_coercion (now path : String) (fs : FS) (newD stamped : JVal)
    (hstamp : stampSavedTimestamp now newD = some stamped) :
    (∀ okvs : List (String × JVal), load_from_json fs path = some (.obj okvs) → okvs ≠ [] →
        hasKey okvs "results" = false →
        append_to_json now newD fs path
          = (true, dictSet fs path (.obj [("results", .arr [.obj okvs, stamped])])))
    ∧ (load_from_json fs path = none →
        append_to_json now newD fs path
          = (true, dictSet fs path (.obj [("results", .arr [stamped])]))) := by
  constructor
  · intro okvs hload hne hnores
    have hfalsy : (JVal.obj okvs).falsy = false := by
      have h0 : okvs.isEmpty = false := by
        rcases he : okvs.isEmpty with _ | _
        · rfl
        · exact absurd (List.isEmpty_iff.mp he) hne
      simp [JVal.falsy, h0]
    have hnores2 : (alookup okvs "results").isSome = false := hnores
    simp [append_to_json, hload, hfalsy, hnores2, hstamp, save_to_json,
      stampExtractionTimestamp, alookup, dictSet, hasKey]
  · intro hload
    simp [append_to_json, hload, hstamp, save_to_json, stampExtractionTimestamp,
      alookup, dictSet, hasKey]

/-- Witness for append_to_json_coercion: appending to a path holding a
bare single result wraps old and stamped new into a results container. -/
theorem append_to_json_coercion_witness :
    append_to_json "T" (.obj [("emails", .arr [])])
        [("p", .obj [("emails", .arr [.str "x@y.zz"])])] "p"
      = (true, dictSet [("p", .obj [("emails", .arr [.str "x@y.zz"])])] "p"
          (.obj [("results", .arr [.obj [("emails", .arr [.str "x@y.zz"])],
            .obj [("emails", .arr []),
                  ("metadata", .obj [("saved_timestamp", .str "T")])]])])) :=
  (append_to_json_coercion "T" "p" [("p", .obj [("emails", .arr [.str "x@y.zz"])])]
      (.obj [("emails", .arr [])])
      (.obj [("emails", .arr []), ("metadata", .obj [("saved_timestamp", .str "T")])]) rfl).1
    [("emails", .arr [.str "x@y.zz"])] rfl (by simp) rfl
